import Mathlib

/-!
# Verification of the ClaudeToGo core algorithms

This file gives a shallow embedding, in Lean 4, of the core algorithms of the
ClaudeToGo repository (a Go program that turns Claude Code hook events into
messenger notifications) and proves properties of that embedding.

Modeling conventions:
* Go strings are modeled as Lean `String`s (lists of characters).  The Go code
  indexes strings by byte; for the ASCII texts manipulated here the byte and
  character views coincide, and the embedding uses the character view.
* Go `map[string]T` values are modeled as association lists.
* Functions that perform file I/O are abstracted over the filesystem facts they
  consume (an existence predicate, a parsed file list, a log snapshot).
* Go runtime panics (out-of-range slicing) and non-terminating loops are made
  explicit: fallible slicing returns a `panicked` result, and the one unbounded
  loop in the source is embedded with an explicit fuel parameter, `none`
  meaning that the loop has not exited within the given fuel.
-/

/-- Characterwise ASCII lower-casing of one character (model of what
`strings.ToLower` does on the ASCII texts relevant here). -/
def goCharLower (c : Char) : Char :=
  if 'A' ≤ c ∧ c ≤ 'Z' then Char.ofNat (c.toNat + 32) else c

/-- Model of Go `strings.ToLower`. -/
def goToLower (s : String) : String :=
  ⟨s.data.map goCharLower⟩

/-- Does the character list `s` start with the pattern `pat`? -/
def listStartsWith : List Char → List Char → Bool
  | _, [] => true
  | [], _ :: _ => false
  | a :: s, b :: pat => a == b && listStartsWith s pat

/-- Does the character list `s` contain `pat` as a contiguous run? -/
def listContains : List Char → List Char → Bool
  | [], pat => pat.isEmpty
  | a :: s, pat => listStartsWith (a :: s) pat || listContains s pat

/-- Model of Go `strings.Contains`. -/
def goContains (s sub : String) : Bool :=
  listContains s.data sub.data

/-- Model of Go `strings.HasPrefix`. -/
def goStartsWith (s pat : String) : Bool :=
  listStartsWith s.data pat.data

/-- Model of Go `strings.TrimSpace`. -/
def goTrim (s : String) : String :=
  ⟨((s.data.dropWhile Char.isWhitespace).reverse.dropWhile Char.isWhitespace).reverse⟩

/-- Model of Go `strings.Join`. -/
def goJoin (sep : String) (parts : List String) : String :=
  match parts with
  | [] => ""
  | p :: rest => rest.foldl (fun acc q => acc ++ sep ++ q) p

/-- Model of Go `strings.Fields`: whitespace-separated tokens. -/
def goFields (s : String) : List String :=
  (s.split Char.isWhitespace).filter (fun t => !(t == ""))

/-- Model of Go `path/filepath.Base`: the last path component, with trailing
slashes removed; `"."` for the empty path and `"/"` when only slashes remain. -/
def filepathBase (path : String) : String :=
  if path = "" then "."
  else
    let trimmed := (path.data.reverse.dropWhile (· == '/')).reverse
    if trimmed = [] then "/"
    else ⟨(trimmed.reverse.takeWhile (fun c => !(c == '/'))).reverse⟩

/-- Token usage block of a transcript message (`types.Usage`). -/
structure Usage where
  inputTokens : Int
  cacheCreationInputTokens : Int
  cacheReadInputTokens : Int
  outputTokens : Int
  serviceTier : String
deriving Repr, DecidableEq

/-- One element of an assistant message's JSON content list.  A field is
`none` when it is absent from the JSON object or is not a JSON string (the Go
code type-asserts each field and skips it otherwise); a list element that is
not a JSON object at all is modeled as the element with all fields `none`. -/
structure ContentElem where
  typ : Option String
  text : Option String
  id : Option String
  name : Option String
deriving Repr, DecidableEq

/-- The polymorphic `content` field of a transcript message: a plain JSON
string, a JSON list of typed items, or anything else. -/
inductive MsgContent where
  | str (s : String)
  | items (l : List ContentElem)
  | other
deriving Repr, DecidableEq

/-- Nested message body of a transcript line (`types.ClaudeMessage`). -/
structure ClaudeMessage where
  id : String
  typ : String
  role : String
  model : String
  content : MsgContent
  stopReason : String
  stopSequence : String
  usage : Option Usage
deriving Repr, DecidableEq

/-- One line of a transcript file (`types.TranscriptMessage`). -/
structure TranscriptMessage where
  parentUuid : String
  isSidechain : Bool
  userType : String
  cwd : String
  sessionId : String
  version : String
  gitBranch : String
  typ : String
  message : ClaudeMessage
  uuid : String
  timestamp : String
deriving Repr, DecidableEq

/-- One line of the event log (`types.ClaudeHookEvent`). -/
structure ClaudeHookEvent where
  sessionID : String
  transcriptPath : String
  cwd : String
  hookEventName : String
  toolName : String
  timestamp : String
  message : String
deriving Repr, DecidableEq

/-- `extractor.determineTaskStatus`: derive the task status of a Stop event
from the final assistant message text and its usage block. -/
def determineTaskStatus (finalMessage : String) (message : TranscriptMessage) : String :=
  let lowerMsg := goToLower finalMessage
  if goContains lowerMsg "error" || goContains lowerMsg "failed" ||
     goContains lowerMsg "cannot" || goContains lowerMsg "unable" then
    "error"
  else if goContains lowerMsg "completed" || goContains lowerMsg "done" ||
     goContains lowerMsg "finished" || goContains lowerMsg "created" ||
     goContains lowerMsg "updated" || goContains lowerMsg "successfully" then
    "completed"
  else if (match message.message.usage with
           | some u => decide (u.outputTokens > 0)
           | none => false) then
    "completed"
  else
    "completed"

/-- Model of Go `strings.LastIndex(s, string(c))` for a single character:
index of the last occurrence of `c` in `s`, or `-1` when absent. -/
def lastIndexChar : List Char → Char → Int
  | [], _ => -1
  | a :: s, c =>
    let r := lastIndexChar s c
    if r ≥ 0 then r + 1 else if a = c then 0 else -1

/-- `extractor.maxOfThree`. -/
def maxOfThree (a b c : Int) : Int :=
  if a ≥ b ∧ a ≥ c then a
  else if b ≥ c then b
  else c

/-- `extractor.generateSummary`: truncate a long final message at the last
sentence break inside the first 97 characters, else hard-truncate. -/
def generateSummary (finalMessage : List Char) : List Char :=
  if finalMessage.length ≤ 100 then finalMessage
  else
    let truncated := finalMessage.take 97
    let lastPeriod := lastIndexChar truncated '.'
    let lastExclamation := lastIndexChar truncated '!'
    let lastQuestion := lastIndexChar truncated '?'
    let breakPoint := maxOfThree lastPeriod lastExclamation lastQuestion
    if breakPoint > 50 then finalMessage.take (breakPoint.toNat + 1)
    else truncated ++ "...".data

/-- The spec's error keyword set for task-status derivation. -/
def errorKeywords : List String := ["error", "failed", "cannot", "unable"]

/-- The spec's completion keyword set for task-status derivation. -/
def completionKeywords : List String := ["completed", "done", "finished", "created", "updated", "successfully"]

/-- Task status as worded by the spec: lower-case the text, then apply the
error keyword set, the completion keyword set, the non-zero output-token
check, and the completed default, in that precedence. -/
def specTaskStatus (finalMessage : String) (usage : Option Usage) : String :=
  let lowerMsg := goToLower finalMessage
  if errorKeywords.any (fun k => goContains lowerMsg k) then "error"
  else if completionKeywords.any (fun k => goContains lowerMsg k) then "completed"
  else if (match usage with
           | some u => decide (u.outputTokens ≠ 0)
           | none => false) then
    "completed"
  else "completed"

/-- Last index in `s` of a character satisfying `p`, or `-1` when none does. -/
def lastIndexP (p : Char → Bool) : List Char → Int
  | [] => -1
  | a :: s =>
    let r := lastIndexP p s
    if r ≥ 0 then r + 1 else if p a then 0 else -1

/-- Sentence-ending punctuation, per the spec. -/
def sentenceEnd (c : Char) : Bool :=
  (c == '.' || c == '!') || c == '?'

/-- Summary as worded by the spec: the text itself when at most 100 characters
long; otherwise cut at the last sentence-ending punctuation inside the first
97 characters when that position is past 50, else hard-truncate at 97
characters and append an ellipsis marker. -/
def specSummary (finalMessage : List Char) : List Char :=
  if finalMessage.length ≤ 100 then finalMessage
  else
    let p := lastIndexP sentenceEnd (finalMessage.take 97)
    if p > 50 then finalMessage.take (p.toNat + 1)
    else finalMessage.take 97 ++ "...".data

theorem lastIndexP_ge (p : Char → Bool) (s : List Char) : -1 ≤ lastIndexP p s := by
  induction s with
  | nil => simp [lastIndexP]
  | cons a s ih =>
    simp only [lastIndexP]
    split
    · omega
    · split <;> omega

theorem lastIndexChar_eq_lastIndexP (s : List Char) (c : Char) :
    lastIndexChar s c = lastIndexP (fun a => a == c) s := by
  induction s with
  | nil => rfl
  | cons a s ih =>
    simp only [lastIndexChar, lastIndexP, ih]
    split
    · rfl
    · by_cases h : a = c <;> simp [h]

theorem lastIndexP_or (p q : Char → Bool) (s : List Char) :
    max (lastIndexP p s) (lastIndexP q s) = lastIndexP (fun c => p c || q c) s := by
  induction s with
  | nil => simp [lastIndexP]
  | cons a s ih =>
    have hp := lastIndexP_ge p s
    have hq := lastIndexP_ge q s
    simp only [lastIndexP, ← ih]
    rcases Bool.eq_false_or_eq_true (p a) with hP | hP <;>
      rcases Bool.eq_false_or_eq_true (q a) with hQ | hQ <;>
        simp only [hP, hQ, Bool.false_or, Bool.true_or, Bool.or_false, Bool.or_true,
          Int.max_def] <;>
        split_ifs <;> omega

theorem maxOfThree_eq_max (a b c : Int) : maxOfThree a b c = max (max a b) c := by
  unfold maxOfThree
  simp only [Int.max_def]
  split_ifs <;> omega

/-- C2: for every final-message text, Stop-event task-status derivation
lower-cases the text and applies keyword sets in the spec's precedence (error
keywords, then completion keywords, then non-zero output-token usage, then the
completed default); in particular a text containing both "Error: cannot write
file" and "completed" yields "error". -/
theorem c2_determine_task_status (finalMessage : String) (m : TranscriptMessage) :
    determineTaskStatus finalMessage m = specTaskStatus finalMessage m.message.usage ∧
    determineTaskStatus "Error: cannot write file. Task completed." m = "error" := by
  constructor
  · unfold determineTaskStatus specTaskStatus
    simp only [errorKeywords, completionKeywords, List.any_cons, List.any_nil, Bool.or_false,
      Bool.or_assoc]
    split_ifs <;> rfl
  · rfl

/-- C3: for every final-message text, the summary is the text itself when its
length is at most 100 characters; otherwise, letting p be the last position of
a sentence-ending punctuation character within the first 97 characters, the
prefix ending at p inclusive when p is greater than 50, and otherwise the
first 97 characters followed by an ellipsis marker. -/
theorem c3_generate_summary (finalMessage : List Char) :
    generateSummary finalMessage = specSummary finalMessage := by
  unfold generateSummary specSummary
  split
  · rfl
  · simp only [lastIndexChar_eq_lastIndexP, maxOfThree_eq_max, lastIndexP_or]
    rfl

/-- The text-collecting loop inside `transcript.Reader.ExtractTextContent`:
walk the content list, appending the text of every item whose type tag is
"text" and whose text field is a string. -/
def collectTextParts : List ContentElem → List String → List String
  | [], acc => acc
  | it :: rest, acc =>
    if it.typ == some "text" then
      match it.text with
      | some t => collectTextParts rest (acc ++ [t])
      | none => collectTextParts rest acc
    else collectTextParts rest acc

theorem collectTextParts_eq (l : List ContentElem) (acc : List String) :
    collectTextParts l acc
      = acc ++ l.filterMap (fun it => if it.typ == some "text" then it.text else none) := by
  induction l generalizing acc with
  | nil => simp [collectTextParts]
  | cons a l ih =>
    by_cases h : a.typ == some "text"
    · have h' : a.typ = some "text" := by simpa using h
      cases ht : a.text <;>
        simp [collectTextParts, h, ht, ih, List.filterMap_cons, h']
    · have h' : ¬a.typ = some "text" := by simpa using h
      simp [collectTextParts, h, ih, List.filterMap_cons, h']

/-- `transcript.Reader.ExtractTextContent`, switching on the polymorphic
content field as the Go code does: a string is returned verbatim; a list is
scanned for items whose type tag is "text" and whose text field is a string,
and their texts are joined with " "; any other content yields the empty
join. -/
def textOfContent : MsgContent → String
  | .str s => s
  | .items l => goJoin " " (collectTextParts l [])
  | .other => goJoin " " []

/-- `transcript.Reader.ExtractTextContent` on a whole transcript message. -/
def extractTextContent (m : TranscriptMessage) : String :=
  textOfContent m.message.content

/-- Text extraction from a content list as worded by the spec: the text
fields of the items tagged type == "text", in list order, joined with a
single space. -/
def claimTextOfItems (l : List ContentElem) : String :=
  goJoin " " (l.filterMap (fun it => if it.typ == some "text" then it.text else none))

/-- A transcript message with the given content and all other fields fixed,
used to state concrete examples. -/
def mkTranscriptMsg (c : MsgContent) : TranscriptMessage :=
  { parentUuid := "", isSidechain := false, userType := "external", cwd := "", sessionId := "",
    version := "", gitBranch := "", typ := "assistant",
    message := { id := "", typ := "message", role := "assistant", model := "", content := c,
                 stopReason := "", stopSequence := "", usage := none },
    uuid := "", timestamp := "" }

/-- A content item tagged "text" carrying the given text. -/
def textElem (t : String) : ContentElem :=
  { typ := some "text", text := some t, id := none, name := none }

/-- C8: for every transcript message, text extraction returns a string
content verbatim, and for list content returns the text fields of the items
tagged type == "text", in list order, joined with a single space; two text
items "A" and "B" yield "A B", and items of any other type contribute
nothing. -/
theorem c8_extract_text_content :
    (∀ m : TranscriptMessage, extractTextContent m =
      match m.message.content with
      | .str s => s
      | .items l => claimTextOfItems l
      | .other => "") ∧
    extractTextContent (mkTranscriptMsg (.items
      [textElem "A", { typ := some "tool_use", text := none, id := some "t1", name := some "Write" },
       textElem "B"])) = "A B" := by
  constructor
  · intro m
    cases hc : m.message.content with
    | str s => simp [extractTextContent, hc, textOfContent]
    | other => simp [extractTextContent, hc, textOfContent, goJoin]
    | items l =>
      simp only [extractTextContent, hc, textOfContent, claimTextOfItems]
      rw [collectTextParts_eq]
      simp
  · rfl

/-- The uuid → message index built by `transcript.Reader.GetMessageChain`:
iterate over the parsed messages in order, later entries overwriting earlier
ones (Go map insertion). -/
def buildIndex (messages : List TranscriptMessage) (u : String) : Option TranscriptMessage :=
  messages.foldl (fun acc msg => if msg.uuid == u then some msg else acc) none

theorem buildIndex_uuid (messages : List TranscriptMessage) :
    ∀ (u : String) (m : TranscriptMessage), buildIndex messages u = some m → m.uuid = u := by
  intro u m
  unfold buildIndex
  suffices h : ∀ init : Option TranscriptMessage,
      (∀ m', init = some m' → m'.uuid = u) →
      messages.foldl (fun acc msg => if msg.uuid == u then some msg else acc) init = some m →
      m.uuid = u by
    refine h none ?_
    intro m' hm'
    cases hm'
  induction messages with
  | nil =>
    intro init hinit h
    exact hinit m h
  | cons a rest ih =>
    intro init hinit h
    refine ih _ ?_ h
    intro m' hm'
    by_cases ha : a.uuid == u
    · simp only [ha, if_true, Option.some.injEq] at hm'
      subst hm'
      simpa using ha
    · simp only [ha, if_false] at hm'
      exact hinit m' hm'

/-- The uuid-chasing loop of `transcript.Reader.GetMessageChain`, embedded
with explicit fuel: each loop iteration consumes one unit of fuel, and `none`
means the loop has not exited within the given fuel.  A resolvable uuid
appends its message on the right of the recursive result (the Go code
prepends as it walks, which is the same forward order) and the walk continues
at that message's parentUuid; an empty or unresolvable uuid ends the walk. -/
def chainWalk (index : String → Option TranscriptMessage) :
    Nat → String → Option (List TranscriptMessage)
  | 0, currentUUID =>
    if currentUUID = "" then some []
    else
      match index currentUUID with
      | none => some []
      | some _ => none
  | fuel + 1, currentUUID =>
    if currentUUID = "" then some []
    else
      match index currentUUID with
      | none => some []
      | some msg => (chainWalk index fuel msg.parentUuid).map (fun chain => chain ++ [msg])

/-- `transcript.Reader.GetMessageChain` on parsed messages, with fuel. -/
def getMessageChain (messages : List TranscriptMessage) (startUUID : String) (fuel : Nat) :
    Option (List TranscriptMessage) :=
  chainWalk (buildIndex messages) fuel startUUID

theorem chainWalk_exit (index : String → Option TranscriptMessage) (fuel : Nat) (u : String)
    (h : u = "" ∨ index u = none) : chainWalk index fuel u = some [] := by
  by_cases hu : u = ""
  · cases fuel <;> simp [chainWalk, hu]
  · rcases h with h | h
    · exact absurd h hu
    · cases fuel <;> simp [chainWalk, hu, h]

theorem chainWalk_sound (index : String → Option TranscriptMessage)
    (hidx : ∀ u m, index u = some m → m.uuid = u) :
    ∀ (fuel : Nat) (u : String) (c : List TranscriptMessage),
      chainWalk index fuel u = some c →
      List.Chain' (fun a b => b.parentUuid = a.uuid) c ∧
        ∀ m, c.getLast? = some m → m.uuid = u := by
  intro fuel
  induction fuel with
  | zero =>
    intro u c h
    by_cases hu : u = ""
    · simp only [chainWalk, hu, if_true] at h
      cases h
      simp
    · cases hi : index u with
      | none =>
        simp only [chainWalk, hu, if_false, hi] at h
        cases h
        simp
      | some m => simp [chainWalk, hu, hi] at h
  | succ fuel ih =>
    intro u c h
    by_cases hu : u = ""
    · simp only [chainWalk, hu, if_true] at h
      cases h
      simp
    · cases hi : index u with
      | none =>
        simp only [chainWalk, hu, if_false, hi] at h
        cases h
        simp
      | some msg =>
        simp only [chainWalk, hu, if_false, hi, Option.map_eq_some'] at h
        obtain ⟨c', hc', rfl⟩ := h
        obtain ⟨hchain, hlast⟩ := ih msg.parentUuid c' hc'
        constructor
        · rw [List.chain'_append]
          refine ⟨hchain, List.chain'_singleton _, ?_⟩
          intro x hx y hy
          simp only [List.head?_cons, Option.mem_def, Option.some.injEq] at hy
          subst hy
          exact (hlast x hx).symm
        · intro m hm
          rw [List.getLast?_concat] at hm
          cases hm
          exact hidx u msg hi

theorem chainWalk_terminates (index : String → Option TranscriptMessage) (r : String → Nat)
    (hr : ∀ u msg, index u = some msg →
      ∀ msg', index msg.parentUuid = some msg' → r msg.parentUuid < r u) :
    ∀ (fuel : Nat) (u : String), r u < fuel → ∃ c, chainWalk index fuel u = some c := by
  intro fuel
  induction fuel with
  | zero =>
    intro u h
    omega
  | succ fuel ih =>
    intro u h
    by_cases hu : u = ""
    · exact ⟨[], chainWalk_exit _ _ _ (Or.inl hu)⟩
    · cases hi : index u with
      | none => exact ⟨[], chainWalk_exit _ _ _ (Or.inr hi)⟩
      | some msg =>
        cases hp : index msg.parentUuid with
        | none =>
          refine ⟨[] ++ [msg], ?_⟩
          simp [chainWalk, hu, hi, chainWalk_exit index fuel msg.parentUuid (Or.inr hp)]
        | some msg' =>
          have hlt : r msg.parentUuid < r u := hr u msg hi msg' hp
          obtain ⟨c, hc⟩ := ih msg.parentUuid (by omega)
          exact ⟨c ++ [msg], by simp [chainWalk, hu, hi, hc]⟩

/-- C9 as stated by the claim: for every parsed transcript and starting
message id, the chain-reconstruction loop exits within some amount of fuel
(i.e. terminates), yielding a finite chain in which each element's parentUuid
is the uuid of the element before it. -/
def chainClaimStatement : Prop :=
  ∀ (messages : List TranscriptMessage) (startUUID : String),
    ∃ (fuel : Nat) (c : List TranscriptMessage),
      getMessageChain messages startUUID fuel = some c ∧
      List.Chain' (fun a b => b.parentUuid = a.uuid) c

/-- A transcript message that is its own parent: uuid and parentUuid both
"a". -/
def selfLoopMsg : TranscriptMessage :=
  { mkTranscriptMsg MsgContent.other with uuid := "a", parentUuid := "a" }

theorem selfLoopWalk_none : ∀ fuel : Nat,
    chainWalk (buildIndex [selfLoopMsg]) fuel "a" = none := by
  have hne : ¬(("a" : String) = "") := by decide
  have hidx : buildIndex [selfLoopMsg] "a" = some selfLoopMsg := rfl
  have hpar : selfLoopMsg.parentUuid = "a" := rfl
  intro fuel
  induction fuel with
  | zero => simp [chainWalk, hne, hidx]
  | succ fuel ih => simp [chainWalk, hne, hidx, hpar, ih]

/-- C9 counterexample: on the one-message transcript whose message is its own
parent, the uuid-chasing loop of GetMessageChain never exits, whatever the
fuel — the code loops forever on a parentUuid cycle, so the claimed
unconditional termination is false. -/
theorem c9_counterexample : ¬chainClaimStatement := by
  intro h
  obtain ⟨fuel, c, hc, -⟩ := h [selfLoopMsg] "a"
  rw [getMessageChain, selfLoopWalk_none fuel] at hc
  cases hc

/-- C9 (amended): chain reconstruction terminates for every transcript whose
resolvable parentUuid links strictly decrease some rank function (in
particular for every acyclic transcript, such as one whose parents always
appear earlier in the file), and the resulting chain is linked: each
element's parentUuid is the uuid of the element before it. -/
theorem c9_get_message_chain (messages : List TranscriptMessage) (r : String → Nat)
    (hr : ∀ u msg, buildIndex messages u = some msg →
      ∀ msg', buildIndex messages msg.parentUuid = some msg' → r msg.parentUuid < r u)
    (startUUID : String) :
    ∃ c, getMessageChain messages startUUID (r startUUID + 1) = some c ∧
      List.Chain' (fun a b => b.parentUuid = a.uuid) c := by
  obtain ⟨c, hc⟩ := chainWalk_terminates (buildIndex messages) r hr (r startUUID + 1)
    startUUID (by omega)
  exact ⟨c, hc, (chainWalk_sound _ (buildIndex_uuid messages) _ _ _ hc).1⟩

/-- A root transcript message: uuid "a", empty parentUuid. -/
def rootMsg : TranscriptMessage :=
  { mkTranscriptMsg MsgContent.other with uuid := "a" }

/-- Witness for C9 (amended), at the one-message transcript whose message has
an empty parentUuid and the constant-zero rank. -/
theorem c9_get_message_chain_witness :
    ∃ c, getMessageChain [rootMsg] "a" 1 = some c ∧
      List.Chain' (fun a b => b.parentUuid = a.uuid) c := by
  have hr : ∀ u msg, buildIndex [rootMsg] u = some msg →
      ∀ msg', buildIndex [rootMsg] msg.parentUuid = some msg' →
        (fun _ : String => 0) msg.parentUuid < (fun _ : String => 0) u := by
    intro u msg h msg' h'
    exfalso
    simp only [buildIndex, List.foldl_cons, List.foldl_nil] at h h'
    split at h
    · cases h
      have : rootMsg.parentUuid = "" := rfl
      rw [this] at h'
      have : (rootMsg.uuid == "") = false := by decide
      rw [this] at h'
      cases h'
    · cases h
  exact c9_get_message_chain [rootMsg] (fun _ => 0) hr "a"

/-- The per-event loop of `processor.ProcessLatestEvents` (also of
`ProcessEventsFromFile`): attempt each event in order; a failing event is
warned about and skipped, a successful one appends its output file path.  The
processing of a single event (extract → format → save) is abstracted as
`process`. -/
def processLoop (process : ClaudeHookEvent → Option String) :
    List ClaudeHookEvent → List String → List String
  | [], acc => acc
  | e :: rest, acc =>
    match process e with
    | some f => processLoop process rest (acc ++ [f])
    | none => processLoop process rest acc

theorem processLoop_eq (process : ClaudeHookEvent → Option String)
    (events : List ClaudeHookEvent) (acc : List String) :
    processLoop process events acc = acc ++ events.filterMap process := by
  induction events generalizing acc with
  | nil => simp [processLoop]
  | cons e rest ih =>
    cases h : process e <;> simp [processLoop, h, ih]

/-- `processor.ProcessLatestEvents` on the parsed event list: keep only the
latest `maxEvents` events, then run the processing loop over them. -/
def processLatestEvents (process : ClaudeHookEvent → Option String)
    (events : List ClaudeHookEvent) (maxEvents : Nat) : List String :=
  let start := if events.length > maxEvents then events.length - maxEvents else 0
  let latestEvents := events.drop start
  processLoop process latestEvents []

theorem processLatestEvents_eq (process : ClaudeHookEvent → Option String)
    (events : List ClaudeHookEvent) (maxEvents : Nat) :
    processLatestEvents process events maxEvents
      = (events.drop (events.length - min maxEvents events.length)).filterMap process := by
  simp only [processLatestEvents]
  rw [processLoop_eq, List.nil_append]
  have h : (if events.length > maxEvents then events.length - maxEvents else 0)
      = events.length - min maxEvents events.length := by
    split_ifs with h <;> omega
  rw [h]

/-- C4: for a log parsing to k events, processLatest(log, n) processes
exactly the last min(n, k) events in log order — the outputs are the
filterMap of the per-event processing function over that length-min(n, k)
suffix, so a per-event failure is skipped without affecting which other
events are processed or their order. -/
theorem c4_process_latest_events (process : ClaudeHookEvent → Option String)
    (events : List ClaudeHookEvent) (maxEvents : Nat) :
    processLatestEvents process events maxEvents
      = (events.drop (events.length - min maxEvents events.length)).filterMap process ∧
    (events.drop (events.length - min maxEvents events.length)).length
      = min maxEvents events.length := by
  refine ⟨processLatestEvents_eq process events maxEvents, ?_⟩
  rw [List.length_drop]
  omega

/-- `processor.ProcessingStats`. -/
structure ProcessingStats where
  totalEvents : Nat
  stopEvents : Nat
  notificationEvents : Nat
  processableEvents : Nat
  missingTranscripts : Nat
deriving Repr, DecidableEq

/-- The per-event counting loop of `processor.GetProcessingStats`: a switch
on the exact event-name string, then an existence check on the event's
transcript path. -/
def statsLoop (transcriptExists : String → Bool) :
    List ClaudeHookEvent → ProcessingStats → ProcessingStats
  | [], stats => stats
  | event :: rest, stats =>
    let stats1 :=
      if event.hookEventName == "Stop" then
        { stats with stopEvents := stats.stopEvents + 1 }
      else if event.hookEventName == "Notification" then
        { stats with notificationEvents := stats.notificationEvents + 1 }
      else stats
    let stats2 :=
      if transcriptExists event.transcriptPath then
        { stats1 with processableEvents := stats1.processableEvents + 1 }
      else
        { stats1 with missingTranscripts := stats1.missingTranscripts + 1 }
    statsLoop transcriptExists rest stats2

/-- `processor.GetProcessingStats` on the parsed event list, abstracted over
which transcript paths currently exist on disk. -/
def getProcessingStats (transcriptExists : String → Bool)
    (events : List ClaudeHookEvent) : ProcessingStats :=
  statsLoop transcriptExists events
    { totalEvents := events.length, stopEvents := 0, notificationEvents := 0,
      processableEvents := 0, missingTranscripts := 0 }

theorem statsLoop_eq (te : String → Bool) (events : List ClaudeHookEvent)
    (init : ProcessingStats) :
    statsLoop te events init =
      { totalEvents := init.totalEvents,
        stopEvents := init.stopEvents
          + (events.filter (fun e => e.hookEventName == "Stop")).length,
        notificationEvents := init.notificationEvents
          + (events.filter (fun e => e.hookEventName == "Notification")).length,
        processableEvents := init.processableEvents
          + (events.filter (fun e => te e.transcriptPath)).length,
        missingTranscripts := init.missingTranscripts
          + (events.filter (fun e => !te e.transcriptPath)).length } := by
  induction events generalizing init with
  | nil => simp [statsLoop]
  | cons e rest ih =>
    by_cases h1 : e.hookEventName == "Stop"
    · have h1' : e.hookEventName = "Stop" := by simpa using h1
      have h2 : ¬((e.hookEventName == "Notification") = true) := by simp [h1']
      by_cases h3 : te e.transcriptPath <;>
        simp [statsLoop, ih, h1, h1', h2, h3, List.filter_cons] <;> omega
    · have h1' : ¬(e.hookEventName = "Stop") := by simpa using h1
      by_cases h2 : e.hookEventName == "Notification" <;>
        by_cases h3 : te e.transcriptPath <;>
          simp [statsLoop, ih, h1, h1', h2, h3, List.filter_cons] <;> omega

theorem length_filter_not_split {α : Type} (p : α → Bool) (l : List α) :
    (l.filter p).length + (l.filter (fun a => !p a)).length = l.length := by
  induction l with
  | nil => simp
  | cons a l ih =>
    cases h : p a <;> simp [List.filter_cons, h] <;> omega

theorem length_filter_disjoint_le {α : Type} (p q : α → Bool)
    (hpq : ∀ a, p a = true → q a = false) (l : List α) :
    (l.filter p).length + (l.filter q).length ≤ l.length := by
  induction l with
  | nil => simp
  | cons a l ih =>
    cases hp : p a
    · cases hq : q a <;> simp [List.filter_cons, hp, hq] <;> omega
    · have hq := hpq a hp
      simp [List.filter_cons, hp, hq]
      omega

/-- C10: the processing statistics satisfy processable + missing = total and
stop + notification ≤ total, and the two per-kind counters count exactly the
events whose kind string is exactly "Stop" respectively "Notification"
(case-sensitively), so differently spelled kinds count in the total but in
neither per-kind counter. -/
theorem c10_processing_stats (transcriptExists : String → Bool)
    (events : List ClaudeHookEvent) :
    (getProcessingStats transcriptExists events).processableEvents
        + (getProcessingStats transcriptExists events).missingTranscripts
      = (getProcessingStats transcriptExists events).totalEvents ∧
    (getProcessingStats transcriptExists events).stopEvents
        + (getProcessingStats transcriptExists events).notificationEvents
      ≤ (getProcessingStats transcriptExists events).totalEvents ∧
    (getProcessingStats transcriptExists events).stopEvents
      = (events.filter (fun e => e.hookEventName == "Stop")).length ∧
    (getProcessingStats transcriptExists events).notificationEvents
      = (events.filter (fun e => e.hookEventName == "Notification")).length := by
  rw [getProcessingStats, statsLoop_eq]
  refine ⟨?_, ?_, by simp, by simp⟩
  · simpa using length_filter_not_split (fun e => transcriptExists e.transcriptPath) events
  · have h := length_filter_disjoint_le (fun e => e.hookEventName == "Stop")
      (fun e => e.hookEventName == "Notification") ?_ events
    · simpa using h
    · intro a ha
      have : a.hookEventName = "Stop" := by simpa using ha
      simp [this]

theorem getProcessingStats_total (te : String → Bool) (events : List ClaudeHookEvent) :
    (getProcessingStats te events).totalEvents = events.length := by
  rw [getProcessingStats, statsLoop_eq]

/-- The watcher's baseline counters (the `hooks.EventWatcher` fields touched
by a poll tick). -/
structure WatcherState where
  lastFileSize : Int
  lastEventCount : Nat
  lastProcessed : Nat
deriving Repr, DecidableEq

/-- What one poll tick observes about the event log: whether the file
exists, its size in bytes, and the events it currently parses to. -/
structure LogSnapshot where
  present : Bool
  size : Int
  events : List ClaudeHookEvent
deriving Repr, DecidableEq

/-- `hooks.EventWatcher.checkForNewEvents`, one poll tick: return unchanged
when the file is absent or its size equals the last observed size; otherwise
recompute the stats and, only when the total event count strictly increased,
process the delta via ProcessLatestEvents and advance the stored size, count
and timestamp.  Returns the new baseline and the tick's output files. -/
def checkForNewEvents (process : ClaudeHookEvent → Option String)
    (transcriptExists : String → Bool) (snap : LogSnapshot) (now : Nat)
    (st : WatcherState) : WatcherState × List String :=
  if !snap.present then (st, [])
  else if snap.size == st.lastFileSize then (st, [])
  else
    let stats := getProcessingStats transcriptExists snap.events
    if stats.totalEvents > st.lastEventCount then
      let newEvents := stats.totalEvents - st.lastEventCount
      let outputFiles := processLatestEvents process snap.events newEvents
      ({ lastFileSize := snap.size, lastEventCount := stats.totalEvents,
         lastProcessed := now }, outputFiles)
    else (st, [])

/-- The last `n` elements of a list, in order. -/
def lastN {α : Type} (l : List α) (n : Nat) : List α :=
  l.drop (l.length - n)

/-- One watcher poll tick as worded by the claim: if the log does not exist
or its current size equals the last observed size, no events are processed
and the stored baseline is unchanged; otherwise the total event count is
recomputed and, only if it strictly increased, exactly the last
(newTotal − lastCount) events are processed (skip-and-continue per event),
after which the stored size, count and timestamp are advanced to the
observed values. -/
def specWatcherTick (process : ClaudeHookEvent → Option String)
    (snap : LogSnapshot) (now : Nat) (st : WatcherState) : WatcherState × List String :=
  if snap.present = false ∨ snap.size = st.lastFileSize then (st, [])
  else
    let newTotal := snap.events.length
    if st.lastEventCount < newTotal then
      ({ lastFileSize := snap.size, lastEventCount := newTotal, lastProcessed := now },
       (lastN snap.events (newTotal - st.lastEventCount)).filterMap process)
    else (st, [])

/-- C5: every watcher poll tick behaves exactly as the claim describes —
absent file or unchanged size leaves the baseline untouched and processes
nothing; otherwise, only a strict increase of the recomputed event count
triggers processing of exactly the last (newTotal − lastCount) events, after
which size, count and timestamp are advanced. -/
theorem c5_watcher_tick (process : ClaudeHookEvent → Option String)
    (transcriptExists : String → Bool) (snap : LogSnapshot) (now : Nat)
    (st : WatcherState) :
    checkForNewEvents process transcriptExists snap now st
      = specWatcherTick process snap now st := by
  unfold checkForNewEvents specWatcherTick
  cases hp : snap.present
  · simp
  · by_cases hs : snap.size = st.lastFileSize
    · simp [hs]
    · have hc1 : ¬((!true : Bool) = true) := by decide
      have hc2 : ¬((snap.size == st.lastFileSize) = true) := by simpa using hs
      have hc3 : ¬((true : Bool) = false ∨ snap.size = st.lastFileSize) := by
        simp [hs]
      rw [if_neg hc1, if_neg hc2, if_neg hc3]
      simp only [getProcessingStats_total, gt_iff_lt]
      split_ifs with h
      · refine congrArg (Prod.mk _) ?_
        rw [processLatestEvents_eq, lastN]
        have hmin : min (snap.events.length - st.lastEventCount) snap.events.length
            = snap.events.length - st.lastEventCount := by omega
        rw [hmin]
      · rfl

/-- A suggested action carried by a messenger message
(`types.SuggestedAction`). -/
structure SuggestedAction where
  type : String
  label : String
  command : String
  description : String
  icon : String
deriving Repr, DecidableEq

/-- The formatted messenger message (`types.MessengerMessage`).  The
free-form context mapping is modeled as an association list whose values are
their rendered strings. -/
structure MessengerMessage where
  type : String
  sessionID : String
  title : String
  message : String
  actions : List SuggestedAction
  context : List (String × String)
  timestamp : String
  priority : String
deriving Repr, DecidableEq

/-- `responder.ResponseHandler.isValidAction`: for an action_needed message
with a non-empty action list, scan the declared actions for the requested
kind; for every other message, accept exactly approve, reject and info. -/
def isValidAction (message : MessengerMessage) (action : String) : Bool :=
  if message.type == "action_needed" && decide (message.actions.length > 0) then
    message.actions.any (fun a => a.type == action)
  else
    action == "approve" || action == "reject" || action == "info"

/-- C6 as stated by the claim: for an action_needed message the requested
action is accepted exactly when it equals the kind of some action in the
declared action list; for any other message type exactly when it is approve,
reject or info. -/
def validActionClaimStatement : Prop :=
  ∀ (message : MessengerMessage) (action : String),
    (message.type = "action_needed" →
      (isValidAction message action = true ↔ ∃ a ∈ message.actions, a.type = action)) ∧
    (message.type ≠ "action_needed" →
      (isValidAction message action = true ↔
        action = "approve" ∨ action = "reject" ∨ action = "info"))

/-- An action_needed message whose declared action list is empty. -/
def emptyActionNeeded : MessengerMessage :=
  { type := "action_needed", sessionID := "s", title := "t", message := "m",
    actions := [], context := [], timestamp := "", priority := "high" }

/-- C6 counterexample: on an action_needed message with an empty declared
action list, the code falls back to the basic accept set and accepts
"approve", while the claim as stated demands that the action appear in the
(empty) declared list. -/
theorem c6_counterexample : ¬validActionClaimStatement := by
  intro h
  obtain ⟨h1, -⟩ := h emptyActionNeeded "approve"
  have hv : isValidAction emptyActionNeeded "approve" = true := by decide
  obtain ⟨a, ha, -⟩ := (h1 rfl).mp hv
  exact absurd ha (List.not_mem_nil a)

/-- Requested-action validity as amended: for an action_needed message with a
non-empty declared action list, the action must appear in that list;
otherwise — any other message type, or an action_needed message whose
declared list is empty — exactly approve, reject and info are accepted. -/
def claimValidAction (message : MessengerMessage) (action : String) : Prop :=
  if message.type = "action_needed" ∧ message.actions ≠ [] then
    ∃ a ∈ message.actions, a.type = action
  else
    action = "approve" ∨ action = "reject" ∨ action = "info"

/-- A suggested action of the given kind with fixed display fields. -/
def mkAction (t : String) : SuggestedAction :=
  { type := t, label := "", command := "", description := "", icon := "" }

/-- An action_needed message declaring approve, reject and info but no
modify (as produced for a bash-tool notification). -/
def noModifyMsg : MessengerMessage :=
  { type := "action_needed", sessionID := "s", title := "t", message := "m",
    actions := [mkAction "approve", mkAction "reject", mkAction "info"],
    context := [], timestamp := "", priority := "high" }

/-- C6 (amended): the requested action is accepted exactly when the amended
validity predicate holds — membership in the declared list for action_needed
messages with a non-empty list, the basic approve/reject/info set otherwise;
in particular requesting "modify" on an action_needed message whose declared
list has no modify entry is rejected. -/
theorem c6_is_valid_action (message : MessengerMessage) (action : String) :
    (isValidAction message action = true ↔ claimValidAction message action) ∧
    isValidAction noModifyMsg "modify" = false := by
  constructor
  · unfold isValidAction claimValidAction
    by_cases h1 : message.type = "action_needed"
    · by_cases h2 : message.actions = []
      · simp [h1, h2, or_assoc]
      · have hlen : message.actions.length > 0 := by
          cases hac : message.actions
          · exact absurd hac h2
          · simp [hac]
        simp [h1, h2, hlen, List.any_eq_true]
    · simp [h1, or_assoc]
  · decide

/-- Result of the responder's session-file lookup: a matching file name, a
typed not-found failure, or a Go runtime panic (out-of-range slice). -/
inductive FindResult where
  | found (path : String)
  | notFound
  | panicked
deriving Repr, DecidableEq

/-- A file of the output directory as seen by the lookup: its name and the
messenger message it parses to (`none` when unreadable or invalid JSON). -/
structure FsFile where
  name : String
  msg : Option MessengerMessage
deriving Repr, DecidableEq

/-- Star-glob matching over file names (model of `path/filepath.Match` as
`filepath.Glob` applies it; the patterns probed here use only the `*`
metacharacter and the names contain no path separators). -/
def globMatch : List Char → List Char → Bool
  | [], [] => true
  | [], _ :: _ => false
  | '*' :: p, s =>
    globMatch p s ||
      (match s with
       | [] => false
       | _ :: s' => globMatch ('*' :: p) s')
  | _ :: _, [] => false
  | c :: p, a :: s => c == a && globMatch p s
termination_by p s => (p.length, s.length)

/-- The three glob patterns `responder.findMessengerFile` probes, built from
the 8-character session prefix, in probe order. -/
def messengerPatterns (shortID : String) : List String :=
  ["messenger-notification-" ++ shortID ++ "-*.json",
   "messenger-stop-" ++ shortID ++ "-*.json",
   "messenger-*-" ++ shortID ++ "-*.json"]

/-- The two-way prefix verification applied to a candidate file's parsed
message: the embedded session id is a prefix of the queried id or the
queried id is a prefix of the embedded one. -/
def sessionMatches (m : MessengerMessage) (sessionID : String) : Bool :=
  goStartsWith m.sessionID sessionID || goStartsWith sessionID m.sessionID

/-- One pattern probe of `responder.findMessengerFile`: scan the directory's
files in order and return the first whose name matches the pattern, parses,
and passes the two-way prefix check; unreadable or non-verifying candidates
are skipped. -/
def probePattern (files : List FsFile) (pattern : String) (sessionID : String) : Option String :=
  match files with
  | [] => none
  | f :: rest =>
    if globMatch pattern.data f.name.data then
      match f.msg with
      | some m =>
        if sessionMatches m sessionID then some f.name
        else probePattern rest pattern sessionID
      | none => probePattern rest pattern sessionID
    else probePattern rest pattern sessionID

/-- `responder.ResponseHandler.findMessengerFile`, abstracted over the output
directory's files: the slice sessionID[:8] panics when the supplied id is
shorter than 8 characters; otherwise the three patterns are probed in order
and the first verified match is returned, else a not-found failure. -/
def findMessengerFile (files : List FsFile) (sessionID : String) : FindResult :=
  if sessionID.length < 8 then .panicked
  else
    let shortID : String := ⟨sessionID.data.take 8⟩
    match (messengerPatterns shortID).findSome?
        (fun pattern => probePattern files pattern sessionID) with
    | some name => .found name
    | none => .notFound

/-- A candidate file is acceptable for a lookup, per the claim: its name
matches one of the probed patterns, it parses, and its embedded session id
passes the two-way prefix check against the queried id. -/
def acceptableFile (shortID sessionID : String) (f : FsFile) : Prop :=
  (∃ pattern ∈ messengerPatterns shortID, globMatch pattern.data f.name.data = true) ∧
  (∃ m, f.msg = some m ∧ sessionMatches m sessionID = true)

/-- C7 as stated by the claim: for every supplied session id the lookup
never crashes — it returns a file that matches a probed pattern and passes
the two-way prefix check, or fails with a not-found error exactly when no
file is acceptable. -/
def findFileClaimStatement : Prop :=
  ∀ (files : List FsFile) (sessionID : String),
    findMessengerFile files sessionID ≠ .panicked ∧
    (∀ name, findMessengerFile files sessionID = .found name →
      ∃ f ∈ files, f.name = name ∧ acceptableFile ⟨sessionID.data.take 8⟩ sessionID f) ∧
    (findMessengerFile files sessionID = .notFound →
      ∀ f ∈ files, ¬acceptableFile ⟨sessionID.data.take 8⟩ sessionID f)

/-- C7 counterexample: a supplied session id shorter than 8 characters makes
the lookup slice sessionID[:8] out of range — a Go runtime panic, not a
not-found failure — so the claim's "never crashing, in particular for ids
shorter than 8 characters" is false. -/
theorem c7_counterexample : ¬findFileClaimStatement := by
  intro h
  obtain ⟨h1, -, -⟩ := h [] "abc"
  exact h1 (by decide)

theorem probePattern_some (files : List FsFile) (pattern sessionID name : String)
    (h : probePattern files pattern sessionID = some name) :
    ∃ f ∈ files, f.name = name ∧ globMatch pattern.data f.name.data = true ∧
      ∃ m, f.msg = some m ∧ sessionMatches m sessionID = true := by
  induction files with
  | nil => simp [probePattern] at h
  | cons f rest ih =>
    by_cases hg : globMatch pattern.data f.name.data = true
    · cases hm : f.msg with
      | some m =>
        by_cases hv : sessionMatches m sessionID = true
        · simp only [probePattern, hg, if_true, hm, hv, Option.some.injEq] at h
          exact ⟨f, by simp, h, hg, m, hm, hv⟩
        · simp only [probePattern, hg, if_true, hm, hv, if_false] at h
          obtain ⟨f', hf', hr⟩ := ih h
          exact ⟨f', List.mem_cons_of_mem _ hf', hr⟩
      | none =>
        simp only [probePattern, hg, if_true, hm] at h
        obtain ⟨f', hf', hr⟩ := ih h
        exact ⟨f', List.mem_cons_of_mem _ hf', hr⟩
    · simp only [probePattern, hg, if_false] at h
      obtain ⟨f', hf', hr⟩ := ih h
      exact ⟨f', List.mem_cons_of_mem _ hf', hr⟩

theorem probePattern_none (files : List FsFile) (pattern sessionID : String)
    (h : probePattern files pattern sessionID = none) :
    ∀ f ∈ files, ¬(globMatch pattern.data f.name.data = true ∧
      ∃ m, f.msg = some m ∧ sessionMatches m sessionID = true) := by
  induction files with
  | nil => simp
  | cons f rest ih =>
    have hstep : probePattern rest pattern sessionID = none ∧
        ¬(globMatch pattern.data f.name.data = true ∧
          ∃ m, f.msg = some m ∧ sessionMatches m sessionID = true) := by
      by_cases hg : globMatch pattern.data f.name.data = true
      · cases hm : f.msg with
        | some m =>
          by_cases hv : sessionMatches m sessionID = true
          · simp [probePattern, hg, hm, hv] at h
          · simp only [probePattern, hg, if_true, hm, hv, if_false] at h
            refine ⟨h, ?_⟩
            rintro ⟨-, m', hm', hv'⟩
            cases hm'
            exact hv hv'
        | none =>
          simp only [probePattern, hg, if_true, hm] at h
          refine ⟨h, ?_⟩
          rintro ⟨-, m', hm', -⟩
          cases hm'
      · simp only [probePattern, hg, if_false] at h
        refine ⟨h, ?_⟩
        rintro ⟨hg', -⟩
        exact hg hg'
    intro f' hf'
    rcases List.mem_cons.mp hf' with rfl | hmem
    · exact hstep.2
    · exact ih hstep.1 f' hmem

theorem findSomeEqSomeEx {α β : Type} (f : α → Option β) (l : List α) (b : β)
    (h : l.findSome? f = some b) : ∃ a ∈ l, f a = some b := by
  induction l with
  | nil => simp [List.findSome?_nil] at h
  | cons a l ih =>
    cases hfa : f a with
    | some c =>
      simp only [List.findSome?_cons, hfa] at h
      exact ⟨a, by simp, by rw [hfa, h]⟩
    | none =>
      simp only [List.findSome?_cons, hfa] at h
      obtain ⟨a', ha', hb⟩ := ih h
      exact ⟨a', by simp [ha'], hb⟩

theorem findSomeEqNoneAll {α β : Type} (f : α → Option β) (l : List α)
    (h : l.findSome? f = none) : ∀ a ∈ l, f a = none := by
  induction l with
  | nil => simp
  | cons a l ih =>
    cases hfa : f a with
    | some c => simp [List.findSome?_cons, hfa] at h
    | none =>
      simp only [List.findSome?_cons, hfa] at h
      intro a' ha'
      rcases List.mem_cons.mp ha' with rfl | hmem
      · exact hfa
      · exact ih h a' hmem

/-- C7 (amended): for every supplied session id of length at least 8 —
truncated 8-character prefixes and full ids alike — the lookup never
crashes: a found file matches a probed pattern, parses, and passes the
two-way prefix check, and a not-found failure means no file on disk is
acceptable.  (Supplied ids shorter than 8 characters instead hit an
out-of-range slice panic, per the counterexample.) -/
theorem c7_find_messenger_file (files : List FsFile) (sessionID : String)
    (h8 : 8 ≤ sessionID.length) :
    findMessengerFile files sessionID ≠ .panicked ∧
    (∀ name, findMessengerFile files sessionID = .found name →
      ∃ f ∈ files, f.name = name ∧ acceptableFile ⟨sessionID.data.take 8⟩ sessionID f) ∧
    (findMessengerFile files sessionID = .notFound →
      ∀ f ∈ files, ¬acceptableFile ⟨sessionID.data.take 8⟩ sessionID f) := by
  have hlen : ¬(sessionID.length < 8) := by omega
  have heq : findMessengerFile files sessionID =
      match (messengerPatterns ⟨sessionID.data.take 8⟩).findSome?
          (fun pattern => probePattern files pattern sessionID) with
      | some name => .found name
      | none => .notFound := by
    unfold findMessengerFile
    rw [if_neg hlen]
  cases hfs : (messengerPatterns ⟨sessionID.data.take 8⟩).findSome?
      (fun pattern => probePattern files pattern sessionID) with
  | some name' =>
    rw [hfs] at heq
    rw [heq]
    refine ⟨fun hcon => FindResult.noConfusion hcon, ?_, fun hcon => FindResult.noConfusion hcon⟩
    intro name hname
    cases hname
    obtain ⟨pattern, hpat, hprobe⟩ := findSomeEqSomeEx _ _ _ hfs
    obtain ⟨f, hf, hfname, hg, m, hm, hv⟩ := probePattern_some files pattern sessionID name' hprobe
    exact ⟨f, hf, hfname, ⟨pattern, hpat, hg⟩, m, hm, hv⟩
  | none =>
    rw [hfs] at heq
    rw [heq]
    refine ⟨fun hcon => FindResult.noConfusion hcon,
      fun name hname => FindResult.noConfusion hname, ?_⟩
    intro _ f hf hacc
    obtain ⟨⟨pattern, hpat, hg⟩, m, hm, hv⟩ := hacc
    have hnone := findSomeEqNoneAll _ _ hfs pattern hpat
    exact probePattern_none files pattern sessionID hnone f hf ⟨hg, m, hm, hv⟩

/-- Witness for C7 (amended) at a concrete 8-character session id over an
empty output directory. -/
theorem c7_find_messenger_file_witness :
    8 ≤ ("abcd1234" : String).length ∧
    (findMessengerFile [] "abcd1234" ≠ .panicked ∧
     (∀ name, findMessengerFile [] "abcd1234" = .found name →
       ∃ f ∈ ([] : List FsFile), f.name = name ∧
         acceptableFile ⟨("abcd1234" : String).data.take 8⟩ "abcd1234" f) ∧
     (findMessengerFile [] "abcd1234" = .notFound →
       ∀ f ∈ ([] : List FsFile),
         ¬acceptableFile ⟨("abcd1234" : String).data.take 8⟩ "abcd1234" f)) :=
  ⟨by decide, c7_find_messenger_file [] "abcd1234" (by decide)⟩

/-- Data extracted from a Stop event (`types.StopEventData`). -/
structure StopEventData where
  finalMessage : String
  summary : String
  taskStatus : String
deriving Repr, DecidableEq

/-- Data extracted from a Notification event (`types.NotificationEventData`);
the tool-specific detail mapping is an association list holding the rendered
string value of each detail. -/
structure NotificationEventData where
  toolName : String
  action : String
  details : List (String × String)
  requestText : String
deriving Repr, DecidableEq

/-- The variant payload held by `types.ExtractedData.Data` (an `interface`
value in Go carrying either a stop or a notification payload). -/
inductive EventData where
  | stop (d : StopEventData)
  | notification (d : NotificationEventData)
deriving Repr, DecidableEq

/-- The extractor's output (`types.ExtractedData`). -/
structure ExtractedData where
  eventType : String
  sessionID : String
  cwd : String
  timestamp : String
  data : EventData
deriving Repr, DecidableEq

/-- Association-list lookup modeling the Go map access `details[key]`. -/
def detailsGet (details : List (String × String)) (key : String) : Option String :=
  (details.find? (fun p => p.1 == key)).map (fun p => p.2)

/-- `formatter.formatStopMessage`. -/
def formatStopMessage (data : StopEventData) : String :=
  if data.finalMessage == "" then "Claude has completed the task."
  else
    let message := goTrim data.finalMessage
    if data.taskStatus == "error" then
      if !(goContains (goToLower message) "error") then "Error: " ++ message else message
    else if data.taskStatus == "cancelled" then
      if !(goContains (goToLower message) "cancel") then "Cancelled: " ++ message else message
    else message

/-- `formatter.getActionDescription`. -/
def getActionDescription (data : NotificationEventData) : String :=
  if data.action == "create_file" then "create a new file"
  else if data.action == "edit_file" then "edit an existing file"
  else if data.action == "read_file" then "read a file"
  else if data.action == "fetch_url" then "fetch content from a URL"
  else if data.action == "execute_command" then "execute a command"
  else if data.action == "list_directory" then "list directory contents"
  else "use the " ++ data.toolName ++ " tool"

/-- `formatter.getNotificationTitle`. -/
def getNotificationTitle (data : NotificationEventData) : String :=
  let t := goToLower data.toolName
  if t == "write" then "📝 File Creation Request"
  else if t == "edit" then "✏️ File Edit Request"
  else if t == "read" then "👀 File Read Request"
  else if t == "webfetch" || t == "fetch" then "🌐 Web Fetch Request"
  else if t == "bash" then "⚡ Command Execution Request"
  else if t == "list" || t == "ls" then "📂 Directory List Request"
  else "🔧 " ++ data.toolName ++ " Tool Request"

/-- `formatter.formatNotificationMessage`. -/
def formatNotificationMessage (data : NotificationEventData) : String :=
  let baseMessage := "Claude wants to " ++ getActionDescription data
  let t := goToLower data.toolName
  if t == "write" then
    match detailsGet data.details "target_file" with
    | some filePath =>
      let base1 := "Claude wants to create file: " ++ filepathBase filePath
      match detailsGet data.details "content_preview" with
      | some preview => base1 ++ "\n\nContent preview:\n" ++ preview
      | none => base1
    | none => baseMessage
  else if t == "edit" then
    match detailsGet data.details "target_file" with
    | some filePath => "Claude wants to edit file: " ++ filepathBase filePath
    | none => baseMessage
  else if t == "read" then
    match detailsGet data.details "target_file" with
    | some filePath => "Claude wants to read file: " ++ filepathBase filePath
    | none => baseMessage
  else if t == "webfetch" || t == "fetch" then
    match detailsGet data.details "target_url" with
    | some url => "Claude wants to fetch: " ++ url
    | none => baseMessage
  else if t == "bash" then
    match detailsGet data.details "command" with
    | some command => "Claude wants to run: " ++ command
    | none => baseMessage
  else if t == "list" || t == "ls" then
    match detailsGet data.details "target_path" with
    | some path => "Claude wants to list directory: " ++ path
    | none => baseMessage
  else baseMessage

/-- `formatter.createStopEventActions`. -/
def createStopEventActions (data : ExtractedData) : List SuggestedAction :=
  [{ type := "info", label := "ℹ️ View Details",
     command := "claudetogo status --session " ++ data.sessionID,
     description := "View full session details", icon := "ℹ️" }]

/-- `formatter.createErrorEventActions`. -/
def createErrorEventActions (data : ExtractedData) : List SuggestedAction :=
  [{ type := "info", label := "🔍 Debug",
     command := "claudetogo debug --session " ++ data.sessionID,
     description := "Get debug information about the error", icon := "🔍" },
   { type := "info", label := "📋 View Log",
     command := "claudetogo log --session " ++ data.sessionID,
     description := "View the full session log", icon := "📋" }]

/-- `formatter.getFileReviewCommand`. -/
def getFileReviewCommand (data : NotificationEventData) : String :=
  match detailsGet data.details "target_file" with
  | some filePath => "cat \"" ++ filePath ++ "\""
  | none => "echo \x27No file specified\x27"

/-- `formatter.getCommandInfoCommand`. -/
def getCommandInfoCommand (data : NotificationEventData) : String :=
  match detailsGet data.details "command" with
  | some command =>
    match goFields command with
    | p :: _ => "man " ++ p
    | [] => "echo \x27No command specified\x27"
  | none => "echo \x27No command specified\x27"

/-- The approve action of `formatter.createNotificationActions`. -/
def approveAction (sessionID : String) (nd : NotificationEventData) : SuggestedAction :=
  { type := "approve", label := "✅ Approve",
    command := "claudetogo respond --session " ++ sessionID ++ " --action approve",
    description := "Allow Claude to " ++ getActionDescription nd, icon := "✅" }

/-- The reject action of `formatter.createNotificationActions`. -/
def rejectAction (sessionID : String) (nd : NotificationEventData) : SuggestedAction :=
  { type := "reject", label := "❌ Reject",
    command := "claudetogo respond --session " ++ sessionID ++ " --action reject",
    description := "Deny the " ++ getActionDescription nd ++ " request", icon := "❌" }

/-- The tool-specific extra actions of `formatter.createNotificationActions`:
a modify action for write/edit tools, a command-info action for bash. -/
def toolSpecificActions (nd : NotificationEventData) : List SuggestedAction :=
  let t := goToLower nd.toolName
  if t == "write" || t == "edit" then
    [{ type := "modify", label := "✏️ Review File",
       command := getFileReviewCommand nd,
       description := "Review the file before approving", icon := "✏️" }]
  else if t == "bash" then
    [{ type := "info", label := "ℹ️ Command Info",
       command := getCommandInfoCommand nd,
       description := "Get more information about this command", icon := "ℹ️" }]
  else []

/-- The trailing generic info action of
`formatter.createNotificationActions`. -/
def moreInfoAction (sessionID : String) : SuggestedAction :=
  { type := "info", label := "📖 More Info",
    command := "claudetogo info --session " ++ sessionID,
    description := "Get more details about this request", icon := "📖" }

/-- `formatter.createNotificationActions`: approve and reject first, then the
tool-specific actions, then the trailing generic info action, appended in
the Go code's order. -/
def createNotificationActions (nd : NotificationEventData) (ed : ExtractedData) :
    List SuggestedAction :=
  ([approveAction ed.sessionID nd, rejectAction ed.sessionID nd]
    ++ toolSpecificActions nd) ++ [moreInfoAction ed.sessionID]

/-- `formatter.formatStopEvent`: only Stop payloads are accepted; title and
priority follow the task status; actions are attached for the completed and
error statuses only. -/
def formatStopEvent (data : ExtractedData) : Except String MessengerMessage :=
  match data.data with
  | .notification _ => .error "invalid stop event data type"
  | .stop stopData =>
    let tp : String × String :=
      if stopData.taskStatus == "completed" then ("✅ Task Completed", "medium")
      else if stopData.taskStatus == "error" then ("❌ Task Failed", "high")
      else if stopData.taskStatus == "cancelled" then ("⏹️ Task Cancelled", "low")
      else ("🔄 Task Finished", "medium")
    let context :=
      [("cwd", data.cwd), ("task_status", stopData.taskStatus), ("session_id", data.sessionID)]
        ++ (if stopData.summary == "" then [] else [("summary", stopData.summary)])
    let actions :=
      if stopData.taskStatus == "completed" then createStopEventActions data
      else if stopData.taskStatus == "error" then createErrorEventActions data
      else []
    .ok { type := "completion", sessionID := data.sessionID,
          title := tp.1, message := formatStopMessage stopData,
          actions := actions, context := context,
          timestamp := data.timestamp, priority := tp.2 }

/-- `formatter.formatNotificationEvent`: only Notification payloads are
accepted; the result is always an action_needed message of high priority
carrying the notification actions. -/
def formatNotificationEvent (data : ExtractedData) : Except String MessengerMessage :=
  match data.data with
  | .stop _ => .error "invalid notification event data type"
  | .notification nd =>
    let context :=
      [("cwd", data.cwd), ("tool_name", nd.toolName),
       ("action", nd.action), ("session_id", data.sessionID)]
        ++ nd.details
    .ok { type := "action_needed", sessionID := data.sessionID,
          title := getNotificationTitle nd,
          message := formatNotificationMessage nd,
          actions := createNotificationActions nd data,
          context := context, timestamp := data.timestamp, priority := "high" }

/-- `formatter.FormatForMessenger`: dispatch on the declared event type. -/
def formatForMessenger (data : ExtractedData) : Except String MessengerMessage :=
  if data.eventType == "stop" then formatStopEvent data
  else if data.eventType == "notification" then formatNotificationEvent data
  else .error ("unknown event type: " ++ data.eventType)

/-- `formatter.CreateActionableMessage`: format, then enrich the context with
the formatting timestamp, the working-directory basename and — for
notifications — quick approve/reject command hints.  The action list is
never touched by the enrichment. -/
def createActionableMessage (data : ExtractedData) : Except String MessengerMessage :=
  match formatForMessenger data with
  | .error e => .error e
  | .ok message =>
    let message := { message with context := message.context
        ++ [("formatted_at", data.timestamp), ("cwd_basename", filepathBase data.cwd)] }
    let message :=
      if data.eventType == "notification" then
        { message with context := message.context
            ++ [("quick_approve",
                 "claudetogo respond --session " ++ data.sessionID ++ " --action approve"),
                ("quick_reject",
                 "claudetogo respond --session " ++ data.sessionID ++ " --action reject")] }
      else message
    .ok message

theorem formatStopEvent_ok (data : ExtractedData) (m : MessengerMessage)
    (h : formatStopEvent data = .ok m) :
    m.type = "completion" ∧ ∀ a ∈ m.actions, a.type = "info" := by
  unfold formatStopEvent at h
  cases hd : data.data with
  | notification nd => rw [hd] at h; cases h
  | stop sd =>
    rw [hd] at h
    simp only [Except.ok.injEq] at h
    subst h
    refine ⟨rfl, ?_⟩
    intro a ha
    simp only at ha
    split_ifs at ha
    · simp only [createStopEventActions, List.mem_singleton] at ha
      subst ha
      rfl
    · simp only [createErrorEventActions, List.mem_cons, List.mem_singleton,
        List.not_mem_nil, or_false] at ha
      rcases ha with rfl | rfl <;> rfl
    · simp at ha

theorem formatNotificationEvent_ok (data : ExtractedData) (m : MessengerMessage)
    (h : formatNotificationEvent data = .ok m) :
    m.type = "action_needed" ∧
    (∃ a ∈ m.actions, a.type = "approve") ∧ (∃ a ∈ m.actions, a.type = "reject") := by
  unfold formatNotificationEvent at h
  cases hd : data.data with
  | stop sd => rw [hd] at h; cases h
  | notification nd =>
    rw [hd] at h
    simp only [Except.ok.injEq] at h
    subst h
    refine ⟨rfl, ⟨approveAction data.sessionID nd, ?_, rfl⟩,
      ⟨rejectAction data.sessionID nd, ?_, rfl⟩⟩
    · simp [createNotificationActions]
    · simp [createNotificationActions]

theorem formatForMessenger_ok (data : ExtractedData) (m : MessengerMessage)
    (h : formatForMessenger data = .ok m) :
    (m.type = "completion" ∧ ∀ a ∈ m.actions, a.type = "info") ∨
    (m.type = "action_needed" ∧ (∃ a ∈ m.actions, a.type = "approve") ∧
      (∃ a ∈ m.actions, a.type = "reject")) := by
  unfold formatForMessenger at h
  by_cases h1 : (data.eventType == "stop") = true
  · rw [if_pos h1] at h
    exact Or.inl (formatStopEvent_ok data m h)
  · rw [if_neg h1] at h
    by_cases h2 : (data.eventType == "notification") = true
    · rw [if_pos h2] at h
      exact Or.inr (formatNotificationEvent_ok data m h)
    · rw [if_neg h2] at h
      cases h

/-- C1: the formatter's output preserves the action invariant — a completion
message (produced from a stop event) never carries an approve or reject
action, and an action_needed message (produced from a notification event)
always carries at least one approve and at least one reject action. -/
theorem c1_formatter_action_invariant (data : ExtractedData) (msg : MessengerMessage)
    (h : createActionableMessage data = .ok msg) :
    (msg.type = "completion" → ∀ a ∈ msg.actions, a.type ≠ "approve" ∧ a.type ≠ "reject") ∧
    (msg.type = "action_needed" →
      (∃ a ∈ msg.actions, a.type = "approve") ∧ (∃ a ∈ msg.actions, a.type = "reject")) := by
  obtain ⟨m, hfm, htype, hactions⟩ : ∃ m, formatForMessenger data = .ok m ∧
      msg.type = m.type ∧ msg.actions = m.actions := by
    unfold createActionableMessage at h
    cases hfm : formatForMessenger data with
    | error e => rw [hfm] at h; cases h
    | ok m =>
      rw [hfm] at h
      simp only at h
      split_ifs at h <;>
        · simp only [Except.ok.injEq] at h
          subst h
          exact ⟨m, rfl, rfl, rfl⟩
  rcases formatForMessenger_ok data m hfm with ⟨ht, hall⟩ | ⟨ht, hex⟩
  · constructor
    · intro _ a ha
      rw [hactions] at ha
      have hinfo := hall a ha
      rw [hinfo]
      exact ⟨by decide, by decide⟩
    · intro habs
      rw [htype, ht] at habs
      exact absurd habs (by decide)
  · constructor
    · intro habs
      rw [htype, ht] at habs
      exact absurd habs (by decide)
    · intro _
      rw [hactions]
      exact hex

/-- A concrete Stop extraction record used by the C1 witness. -/
def c1SampleData : ExtractedData :=
  { eventType := "stop", sessionID := "s1", cwd := "/w", timestamp := "t0",
    data := .stop { finalMessage := "", summary := "", taskStatus := "bogus" } }

/-- The messenger message the formatter produces for `c1SampleData`. -/
def c1SampleMsg : MessengerMessage :=
  { type := "completion", sessionID := "s1", title := "🔄 Task Finished",
    message := "Claude has completed the task.", actions := [],
    context := [("cwd", "/w"), ("task_status", "bogus"), ("session_id", "s1"),
                ("formatted_at", "t0"), ("cwd_basename", "w")],
    timestamp := "t0", priority := "medium" }

/-- Witness for C1 at a concrete Stop extraction record. -/
theorem c1_formatter_action_invariant_witness :
    createActionableMessage c1SampleData = .ok c1SampleMsg ∧
    ((c1SampleMsg.type = "completion" → ∀ a ∈ c1SampleMsg.actions,
        a.type ≠ "approve" ∧ a.type ≠ "reject") ∧
     (c1SampleMsg.type = "action_needed" →
       (∃ a ∈ c1SampleMsg.actions, a.type = "approve") ∧
       (∃ a ∈ c1SampleMsg.actions, a.type = "reject"))) :=
  ⟨rfl, c1_formatter_action_invariant c1SampleData c1SampleMsg rfl⟩
